import Mathlib

/-!
Verification of the btc_auto_bot core against its design description.

The Python sources are shallowly embedded over ℚ: every arithmetic operation
of the bot (Python floats and `Decimal`s) is modelled as exact rational
arithmetic, `Decimal` floor-division and `ROUND_DOWN` quantization as
truncation toward zero, and fallible operations as `Option`/`Except`.
-/

namespace BtcBot

/-- Truncation toward zero on rationals.  Embeds Python `Decimal`
floor-division (`//`, which truncates toward zero) and `Decimal.quantize`
with `ROUND_DOWN`. -/
def qtrunc (x : ℚ) : ℤ := if 0 ≤ x then ⌊x⌋ else ⌈x⌉

/-! ## src/strategy_percent.py -/

/-- Embeds `StrategyConfig` (src/strategy_percent.py). -/
structure StrategyConfig where
  symbol : String
  min_change_pct : ℚ
  max_change_pct : ℚ
  target_balance : ℚ
  min_profit_pct_net : ℚ
  fee_maker : ℚ
  fee_taker : ℚ
  extra_fee_safety_bps : ℤ
  tick_size : ℚ

/-- Embeds `Position` (src/strategy_percent.py): `side` is the literal Python
string (`"NONE"` or `"LONG"`), `entry_price` is `None`-able. -/
structure Position where
  side : String
  entry_price : Option ℚ
  qty : ℚ

/-- Mutable state of `PercentStrategy` (src/strategy_percent.py): the fields
assigned in `__init__` that the embedded methods read or write.  The
`current_buy_order`/`current_sell_order` fields are never used by the
embedded methods and are omitted. -/
structure Strategy where
  cfg : StrategyConfig
  position : Position
  ref_price : Option ℚ
  balance : ℚ

/-- Embeds `PercentStrategy.update_reference_price`: sets the reference price
only when it is still unset (`None`). -/
def update_reference_price (s : Strategy) (price : ℚ) : Strategy :=
  match s.ref_price with
  | none => { s with ref_price := some price }
  | some _ => s

/-- The safety buffer `extra = self.cfg.extra_fee_safety_bps / 10_000.0`
appearing in `_net_profit_pct` and `target_sell_for_net`. -/
def extra_rate (cfg : StrategyConfig) : ℚ := (cfg.extra_fee_safety_bps : ℚ) / 10000

/-- Embeds `PercentStrategy._net_profit_pct`. -/
def net_profit_pct (cfg : StrategyConfig) (pb ps : ℚ) (maker_on_both : Bool) : ℚ :=
  let fee_buy := if maker_on_both then cfg.fee_maker else cfg.fee_taker
  let fee_sell := if maker_on_both then cfg.fee_maker else cfg.fee_taker
  let extra := extra_rate cfg
  let buy_cost := pb * (1 + fee_buy + extra)
  let sell_revenue := ps * (1 - fee_sell - extra)
  (sell_revenue - buy_cost) / buy_cost

/-- Embeds `PercentStrategy.target_sell_for_net`: the minimal sell price for
a required net margin, truncated down to the tick grid by
`(Decimal(str(ps)) // tick) * tick`. -/
def target_sell_for_net (cfg : StrategyConfig) (pb net_target : ℚ) (maker_on_both : Bool) : ℚ :=
  let fee_buy := if maker_on_both then cfg.fee_maker else cfg.fee_taker
  let fee_sell := if maker_on_both then cfg.fee_maker else cfg.fee_taker
  let extra := extra_rate cfg
  let denom := 1 - fee_sell - extra
  let base := pb * (1 + fee_buy + extra) * (1 + net_target)
  let ps := base / denom
  (qtrunc (ps / cfg.tick_size) : ℚ) * cfg.tick_size

/-- Embeds `PercentStrategy.maybe_prices`.  Returns the (possibly updated)
strategy state together with `(state, buy_price, sell_price)`; the
human-readable `reason` string of the Python tuple is elided.  The `none`
branches marked unreachable correspond to Python states that would raise
(`ref` is never `None` after `update_reference_price`; a `LONG` position
always carries an entry price). -/
def maybe_prices (s0 : Strategy) (price : ℚ) : Strategy × String × Option ℚ × Option ℚ :=
  let s := update_reference_price s0 price
  match s.ref_price with
  | none => (s, "HOLD", none, none)
  | some ref =>
    if s.position.side = "NONE" then
      let change := (price - ref) / ref
      if change ≤ -s.cfg.min_change_pct then
        (s, "WANT_BUY", some (ref * (1 - s.cfg.min_change_pct)), none)
      else
        (s, "HOLD", none, none)
    else if s.position.side = "LONG" then
      match s.position.entry_price with
      | none => (s, "HOLD", none, none)
      | some ep =>
        let sell_price := target_sell_for_net s.cfg ep s.cfg.min_profit_pct_net true
        let change_from_entry := (price - ep) / ep
        if s.cfg.max_change_pct ≤ change_from_entry then
          (s, "WANT_SELL", none, some sell_price)
        else
          (s, "HOLD_LONG", none, some sell_price)
    else
      (s, "HOLD", none, none)

/-- Embeds `PercentStrategy.on_buy_executed`. -/
def on_buy_executed (s : Strategy) (price qty fee : ℚ) : Strategy :=
  { s with
    position := { side := "LONG", entry_price := some price, qty := qty }
    balance := s.balance - (price * qty + fee)
    ref_price := some price }

/-- Embeds `PercentStrategy.on_sell_executed`.  Returns
`(pnl, new_balance, new_state)`; `none` models the Python `TypeError` that
`self.position.entry_price * self.position.qty` raises when no entry price is
set. -/
def on_sell_executed (s : Strategy) (price qty fee : ℚ) : Option (ℚ × ℚ × Strategy) :=
  match s.position.entry_price with
  | none => none
  | some ep =>
    let gross := price * qty
    let cost := ep * s.position.qty
    let pnl := gross - cost - fee
    let balance := s.balance + (gross - fee)
    some (pnl, balance,
      { s with
        position := { side := "NONE", entry_price := none, qty := 0 }
        balance := balance
        ref_price := some price })

/-! ## src/db.py — lot ledger -/

/-- Embeds one row of the `lots` table (src/db.py, `_ensure_lots_schema`).
`sell_client_id` is the nullable TEXT column; `status` is the literal status
string (`"OPEN" | "SELL_PLACED" | "CLOSED"`). -/
structure Lot where
  id : ℕ
  buy_price : ℚ
  qty_remaining : ℚ
  target_price : ℚ
  sell_client_id : Option String
  status : String
  deriving DecidableEq

/-- The `lots` table as a list of rows in rowid order, with the
AUTOINCREMENT counter. -/
structure LotLedger where
  lots : List Lot
  next_id : ℕ

/-- Embeds `insert_lot` (src/db.py): inserts a fresh `'OPEN'` row and
returns `lastrowid`. -/
def insert_lot (st : LotLedger) (buy_price qty target_price : ℚ) : ℕ × LotLedger :=
  let lot : Lot :=
    { id := st.next_id, buy_price := buy_price, qty_remaining := qty
      target_price := target_price, sell_client_id := none, status := "OPEN" }
  (st.next_id, { lots := st.lots ++ [lot], next_id := st.next_id + 1 })

/-- Embeds `set_lot_sell` (src/db.py): `UPDATE lots SET sell_client_id=?,
target_price=?, status='SELL_PLACED' WHERE id=?` — note the update is
unconditional on the row's current status. -/
def set_lot_sell (st : LotLedger) (lot_id : ℕ) (client_id : String) (price : ℚ) : LotLedger :=
  { st with
    lots := st.lots.map fun l =>
      if l.id = lot_id then
        { l with sell_client_id := some client_id, target_price := price,
                 status := "SELL_PLACED" }
      else l }

/-- Embeds `close_lot` (src/db.py): `UPDATE lots SET status='CLOSED' WHERE
id=?`, again unconditional on the current status. -/
def close_lot (st : LotLedger) (lot_id : ℕ) : LotLedger :=
  { st with
    lots := st.lots.map fun l =>
      if l.id = lot_id then { l with status := "CLOSED" } else l }

/-- The accumulator predicate of `upsert_accum_lot`'s SELECT:
`status='OPEN' AND (sell_client_id IS NULL OR sell_client_id='')`. -/
def is_accum_lot (l : Lot) : Bool :=
  l.status == "OPEN" && (l.sell_client_id == none || l.sell_client_id == some "")

/-- Embeds `upsert_accum_lot` (src/db.py): merges the buy into the first
`OPEN` lot without an armed sell (`SELECT ... LIMIT 1` in rowid order),
recomputing the volume-weighted average price, or inserts a fresh lot.
Returns `(lot_id, new_buy_price, new_qty)` with the updated ledger. -/
def upsert_accum_lot (st : LotLedger) (buy_price qty target_price : ℚ) :
    ℕ × ℚ × ℚ × LotLedger :=
  match st.lots.find? is_accum_lot with
  | some l =>
    let new_qty0 := l.qty_remaining + qty
    let new_qty := if new_qty0 ≤ 0 then 0 else new_qty0
    let new_bp :=
      if 0 < new_qty then
        (l.buy_price * l.qty_remaining + buy_price * qty) / new_qty
      else buy_price
    (l.id, new_bp, new_qty,
      { st with
        lots := st.lots.map fun l2 =>
          if l2.id = l.id then
            { l2 with buy_price := new_bp, qty_remaining := new_qty,
                      target_price := target_price }
          else l2 })
  | none =>
    let r := insert_lot st buy_price qty target_price
    (r.1, buy_price, qty, r.2)

/-! ## src/ai_bandit.py — parameter bandit -/

/-- Embeds one row of `get_all_configs` (src/db.py, `configs` table). -/
structure BanditConfig where
  id : ℕ
  min_change_pct : ℚ
  max_change_pct : ℚ
  trade_qty_frac : ℚ
  deriving DecidableEq

/-- Embeds one row of `get_config_performance` (src/db.py): the SQL
`GROUP BY config_id` aggregate over the `trades` table. -/
structure PerfRow where
  config_id : ℕ
  num_trades : ℕ
  total_pnl : ℚ
  avg_pnl : ℚ

/-- Embeds `ParamManager._score_config`:
`avg_pnl * min(num_trades / 20.0, 1.0)`. -/
def score_config (p : PerfRow) : ℚ := p.avg_pnl * min ((p.num_trades : ℚ) / 20) 1

/-- Embeds the dictionary lookup
`perf_index = {p["config_id"]: p ...}; perf_index.get(cfg["id"])`: a later
row with the same key overwrites an earlier one, as in Python dict
construction. -/
def perf_lookup (perf : List PerfRow) (cid : ℕ) : Option PerfRow :=
  perf.foldl (fun acc p => if p.config_id = cid then some p else acc) none

/-- Score assigned to a configuration inside `choose_active_config`: `0.0`
when no performance row exists for it, `_score_config` of its row
otherwise. -/
def config_score (perf : List PerfRow) (cfg : BanditConfig) : ℚ :=
  match perf_lookup perf cfg.id with
  | none => 0
  | some p => score_config p

/-- Comparison passed to the sort in `choose_active_config`:
`scored.sort(key=lambda x: x[0], reverse=True)` keeps `a` before `b`
exactly when `b`'s score does not exceed `a`'s. -/
def score_desc {α : Type} (a b : ℚ × α) : Bool := decide (b.1 ≤ a.1)

/-- Embeds `ParamManager.choose_active_config` (src/ai_bandit.py).
`r` is the value drawn by `random.random()` and `pick` selects the index of
`random.choice` on the exploration branch; `none` models the
`RuntimeError` raised on an empty configuration list.  The descending sort
followed by `[0]` is embedded by the stable `List.mergeSort` (Python's sort
is stable) followed by `head?`; the mutation of the chosen row's `reason`
key is elided. -/
def choose_active_config (eps r : ℚ) (pick : ℕ) (configs : List BanditConfig)
    (perf : List PerfRow) : Option BanditConfig :=
  match configs with
  | [] => none
  | _ :: _ =>
    if r < eps then
      configs[pick % configs.length]?
    else
      let scored := configs.map fun cfg => (config_score perf cfg, cfg)
      ((scored.mergeSort score_desc).head?).map Prod.snd

/-! ## src/exchange_binance.py — order execution guard -/

/-- Embeds the filter dictionary of `get_symbol_filters`
(src/exchange_binance.py). -/
structure Filters where
  min_qty : ℚ
  step_size : ℚ
  min_notional : ℚ
  tick_size : ℚ

/-- Multiplicity of the factor `p` in `n` (fuel-based, fuel `n` suffices
since the multiplicity is at most `n`). -/
def pFacAux : ℕ → ℕ → ℕ → ℕ
  | 0, _, _ => 0
  | fuel + 1, p, n => if 2 ≤ p ∧ 0 < n ∧ p ∣ n then pFacAux fuel p (n / p) + 1 else 0

/-- Multiplicity of the prime factor `p` in `n`. -/
def pFac (p n : ℕ) : ℕ := pFacAux n p n

/-- Embeds `BinanceWrapper._decimals_from_step`: the number of decimal
places of the normalized `Decimal` form of the step.  For a
decimal-representable rational (reduced denominator `2^a * 5^b`, the only
values a `Decimal` step can take) this is `max a b`. -/
def decimals_from_step (s : ℚ) : ℕ := max (pFac 2 s.den) (pFac 5 s.den)

/-- Embeds `Decimal.quantize(Decimal(1).scaleb(-places), rounding=ROUND_DOWN)`:
truncation toward zero at `places` decimal places. -/
def quantize_down (x : ℚ) (places : ℕ) : ℚ :=
  (qtrunc (x * 10 ^ places) : ℚ) / 10 ^ places

/-- Embeds `BinanceWrapper._post_quant_checks`: note the notional check is
guarded by the truthiness test `if price`, so it is skipped when the
quantized price is zero. -/
def post_quant_checks (qty price : ℚ) (f : Filters) : Bool :=
  if qty < f.min_qty then false
  else if price ≠ 0 ∧ qty * price < f.min_notional then false
  else true

/-- Embeds the sizing portion of `BinanceWrapper.order_limit_maker`
(src/exchange_binance.py): quantize quantity and price downward at the
decimal precision derived from the step and tick, then either raise the
sizing `ValueError` (`Except.error`, before any exchange call) or proceed
to place the order with exactly the quantized pair (`Except.ok`). -/
def order_limit_maker (f : Filters) (quantity price : ℚ) : Except String (ℚ × ℚ) :=
  let q_places := decimals_from_step f.step_size
  let p_places := decimals_from_step f.tick_size
  let qd := quantize_down quantity q_places
  let pd := quantize_down price p_places
  if post_quant_checks qd pd f then Except.ok (qd, pd)
  else Except.error "Fails filters after quantize (minQty/minNotional)"

/-! ## Helper lemmas -/

/-- On nonnegative arguments, truncation toward zero is the floor. -/
lemma qtrunc_of_nonneg {x : ℚ} (h : 0 ≤ x) : qtrunc x = ⌊x⌋ := if_pos h

/-- Evaluation rule for `qtrunc` on a nonnegative argument. -/
lemma qtrunc_eq_of_bounds {x : ℚ} {k : ℤ} (h0 : 0 ≤ x) (h1 : (k : ℚ) ≤ x)
    (h2 : x < (k : ℚ) + 1) : qtrunc x = k := by
  rw [qtrunc_of_nonneg h0, Int.floor_eq_iff]
  exact ⟨h1, h2⟩

/-- Flooring to the tick grid never rounds up. -/
lemma qtrunc_div_mul_le {x t : ℚ} (ht : 0 < t) (hx : 0 ≤ x) :
    (qtrunc (x / t) : ℚ) * t ≤ x := by
  rw [qtrunc_of_nonneg (div_nonneg hx ht.le)]
  have h1 : (⌊x / t⌋ : ℚ) ≤ x / t := Int.floor_le _
  have h2 := mul_le_mul_of_nonneg_right h1 ht.le
  rwa [div_mul_cancel₀ x ht.ne'] at h2

/-- Flooring to the tick grid loses less than one tick. -/
lemma sub_lt_qtrunc_div_mul {x t : ℚ} (ht : 0 < t) (hx : 0 ≤ x) :
    x - t < (qtrunc (x / t) : ℚ) * t := by
  rw [qtrunc_of_nonneg (div_nonneg hx ht.le)]
  have h1 : x / t - 1 < (⌊x / t⌋ : ℚ) := Int.sub_one_lt_floor _
  have h2 := mul_lt_mul_of_pos_right h1 ht
  rwa [sub_mul, one_mul, div_mul_cancel₀ x ht.ne'] at h2

/-- Closed form of `target_sell_for_net` with `maker_on_both=True`. -/
lemma target_sell_for_net_true (cfg : StrategyConfig) (pb r : ℚ) :
    target_sell_for_net cfg pb r true =
      (qtrunc (pb * (1 + cfg.fee_maker + extra_rate cfg) * (1 + r) /
        (1 - cfg.fee_maker - extra_rate cfg) / cfg.tick_size) : ℚ) * cfg.tick_size := by
  simp [target_sell_for_net, add_assoc, sub_sub]

/-- Closed form of `_net_profit_pct` with `maker_on_both=True`. -/
lemma net_profit_pct_true (cfg : StrategyConfig) (pb ps : ℚ) :
    net_profit_pct cfg pb ps true =
      (ps * (1 - cfg.fee_maker - extra_rate cfg) - pb * (1 + cfg.fee_maker + extra_rate cfg)) /
        (pb * (1 + cfg.fee_maker + extra_rate cfg)) := by
  simp [net_profit_pct, add_assoc, sub_sub]

/-! ## Claim C1 -/

/-- C1: for a valid buy price `pb > 0`, fee-plus-buffer rate below 1 and net
margin target `r ≥ 0`, executing the buy at `pb` and the sell at
`target_sell_for_net cfg pb r` realizes (as computed by `_net_profit_pct`) a
net margin of at least `r` minus the margin lost to one price tick of
downward rounding, `tick·(1−f−s)/(pb·(1+f+s))`, and never less. -/
theorem C1_net_margin_tick_bound (cfg : StrategyConfig) (pb r : ℚ)
    (hpb : 0 < pb) (ht : 0 < cfg.tick_size) (hr : 0 ≤ r)
    (hfs0 : 0 ≤ cfg.fee_maker + extra_rate cfg)
    (hfs1 : cfg.fee_maker + extra_rate cfg < 1) :
    r - cfg.tick_size * (1 - cfg.fee_maker - extra_rate cfg) /
        (pb * (1 + cfg.fee_maker + extra_rate cfg))
      ≤ net_profit_pct cfg pb (target_sell_for_net cfg pb r true) true := by
  rw [net_profit_pct_true, target_sell_for_net_true]
  set a := cfg.fee_maker with ha
  set e := extra_rate cfg with he
  set t := cfg.tick_size with hT
  have hm0 : 0 < 1 + a + e := by linarith [hfs0]
  have hd0 : 0 < 1 - a - e := by linarith [hfs1]
  have hraw : 0 ≤ pb * (1 + a + e) * (1 + r) / (1 - a - e) := by positivity
  set ps := (qtrunc (pb * (1 + a + e) * (1 + r) / (1 - a - e) / t) : ℚ) * t with hps
  have key : pb * (1 + a + e) * (1 + r) / (1 - a - e) - t < ps := by
    rw [hps]; exact sub_lt_qtrunc_div_mul ht hraw
  have hpm : 0 < pb * (1 + a + e) := by positivity
  rw [le_div_iff₀ hpm]
  have expand : (r - t * (1 - a - e) / (pb * (1 + a + e))) * (pb * (1 + a + e)) =
      r * (pb * (1 + a + e)) - t * (1 - a - e) := by
    field_simp
  rw [expand]
  have P := mul_lt_mul_of_pos_right key hd0
  rw [sub_mul] at P
  have Q : pb * (1 + a + e) * (1 + r) / (1 - a - e) * (1 - a - e) =
      pb * (1 + a + e) * (1 + r) := div_mul_cancel₀ _ hd0.ne'
  rw [Q] at P
  have R : pb * (1 + a + e) * (1 + r) =
      pb * (1 + a + e) + r * (pb * (1 + a + e)) := by ring
  rw [R] at P
  linarith [P]

/-- Strategy configuration of the design scenario: 0.1% maker fee on both
legs, a 10 bps (0.1%) safety buffer, 10% net margin target, 0.01 tick. -/
def cfgC2 : StrategyConfig :=
  { symbol := "BTCUSDT", min_change_pct := 1/20, max_change_pct := 1/10
    target_balance := 1000000, min_profit_pct_net := 1/10
    fee_maker := 1/1000, fee_taker := 1/1000
    extra_fee_safety_bps := 10, tick_size := 1/100 }

/-- C1 witness at the scenario configuration, `pb = 95`, `r = 10%`. -/
theorem C1_witness :
    (1 : ℚ)/10 - cfgC2.tick_size * (1 - cfgC2.fee_maker - extra_rate cfgC2) /
        (95 * (1 + cfgC2.fee_maker + extra_rate cfgC2))
      ≤ net_profit_pct cfgC2 95 (target_sell_for_net cfgC2 95 (1/10) true) true :=
  C1_net_margin_tick_bound cfgC2 95 (1/10) (by norm_num) (by norm_num [cfgC2])
    (by norm_num) (by norm_num [cfgC2, extra_rate]) (by norm_num [cfgC2, extra_rate])

/-! ## Claim C2 -/

/-- C2 counterexample: at the scenario of the claim (buy 95, 0.1% maker fee
per leg, 10% margin target, safety buffer as stated), the value before
flooring is 104709/998 ≈ 104.92 and the returned target is 104.91, both
further than 0.25 from the claimed ≈ 104.59; the claim's literal arithmetic
`95×1.0012×1.10/0.9978` is ≈ 104.86, and even a consistent 2 bps buffer
reading (`95×1.0012×1.10/0.9988`) gives ≈ 104.75, still more than 0.1 above
the claimed value. -/
theorem C2_counterexample :
    target_sell_for_net cfgC2 95 (1/10) true = 10491/100 ∧
    95 * (1 + 1/1000 + (10 : ℚ)/10000) * (1 + 1/10) / (1 - 1/1000 - 10/10000) =
      104709/998 ∧
    (1 : ℚ)/4 < 104709/998 - 10459/100 ∧
    (1 : ℚ)/4 < 10491/100 - 10459/100 ∧
    (1 : ℚ)/10 < 95 * (1 + 1/1000 + (2 : ℚ)/10000) * (1 + 1/10) /
      (1 - 1/1000 - 2/10000) - 10459/100 := by
  refine ⟨?_, by norm_num, by norm_num, by norm_num, by norm_num⟩
  rw [target_sell_for_net_true]
  have harg : 95 * (1 + cfgC2.fee_maker + extra_rate cfgC2) * (1 + 1/10) /
      (1 - cfgC2.fee_maker - extra_rate cfgC2) / cfgC2.tick_size = 5235450/499 := by
    norm_num [cfgC2, extra_rate]
  rw [harg, show qtrunc ((5235450 : ℚ)/499) = 10491 from
    qtrunc_eq_of_bounds (by norm_num) (by norm_num) (by norm_num)]
  norm_num [cfgC2]

/-- C2 (amended): `target_sell_for_net(pb, r)` returns
`pb·(1+f+s)·(1+r)/(1−f−s)` floored down to an integer multiple of the tick
(never rounded up, losing less than one tick); at the scenario (95 buy,
0.1% maker fee per leg, 10% target, 0.1% buffer) the value before flooring
is `95·1.002·1.10/0.998 ≈ 104.92` and the returned target is 104.91 — not
the ≈ 104.59 of the claim. -/
theorem C2_sell_target_floor :
    (∀ (cfg : StrategyConfig) (pb r : ℚ), 0 < cfg.tick_size →
      0 ≤ pb * (1 + cfg.fee_maker + extra_rate cfg) * (1 + r) /
          (1 - cfg.fee_maker - extra_rate cfg) →
      (∃ k : ℤ, target_sell_for_net cfg pb r true = (k : ℚ) * cfg.tick_size) ∧
      target_sell_for_net cfg pb r true ≤
        pb * (1 + cfg.fee_maker + extra_rate cfg) * (1 + r) /
          (1 - cfg.fee_maker - extra_rate cfg) ∧
      pb * (1 + cfg.fee_maker + extra_rate cfg) * (1 + r) /
          (1 - cfg.fee_maker - extra_rate cfg) - cfg.tick_size <
        target_sell_for_net cfg pb r true) ∧
    target_sell_for_net cfgC2 95 (1/10) true = 10491/100 := by
  constructor
  · intro cfg pb r ht hraw
    rw [target_sell_for_net_true]
    exact ⟨⟨_, rfl⟩, qtrunc_div_mul_le ht hraw, sub_lt_qtrunc_div_mul ht hraw⟩
  · rw [target_sell_for_net_true]
    have harg : 95 * (1 + cfgC2.fee_maker + extra_rate cfgC2) * (1 + 1/10) /
        (1 - cfgC2.fee_maker - extra_rate cfgC2) / cfgC2.tick_size = 5235450/499 := by
      norm_num [cfgC2, extra_rate]
    rw [harg, show qtrunc ((5235450 : ℚ)/499) = 10491 from
      qtrunc_eq_of_bounds (by norm_num) (by norm_num) (by norm_num)]
    norm_num [cfgC2]

/-- C2 witness: the universal part of the amended claim applied at the
scenario configuration. -/
theorem C2_witness :
    (∃ k : ℤ, target_sell_for_net cfgC2 95 (1/10) true = (k : ℚ) * cfgC2.tick_size) ∧
    target_sell_for_net cfgC2 95 (1/10) true ≤
      95 * (1 + cfgC2.fee_maker + extra_rate cfgC2) * (1 + 1/10) /
        (1 - cfgC2.fee_maker - extra_rate cfgC2) ∧
    95 * (1 + cfgC2.fee_maker + extra_rate cfgC2) * (1 + 1/10) /
        (1 - cfgC2.fee_maker - extra_rate cfgC2) - cfgC2.tick_size <
      target_sell_for_net cfgC2 95 (1/10) true :=
  C2_sell_target_floor.1 cfgC2 95 (1/10) (by norm_num [cfgC2])
    (by norm_num [cfgC2, extra_rate])

/-! ## Claim C3 -/

/-- Every branch of `maybe_prices` returns the strategy produced by
`update_reference_price` unchanged: the tick handler never moves an
already-set reference price. -/
lemma maybe_prices_fst (s : Strategy) (p : ℚ) :
    (maybe_prices s p).1 = update_reference_price s p := by
  simp only [maybe_prices]
  set u := update_reference_price s p with hu
  rcases hr : u.ref_price with _ | ref
  · simp only [hr]
  · simp only [hr]
    split_ifs with h1 h2 h3
    · rfl
    · rfl
    · rcases he : u.position.entry_price with _ | ep
      · simp only [he]
      · simp only [he]
        split_ifs <;> rfl
    · rfl

/-- A flat strategy whose reference price is 100 (five-percent buy trigger,
as in the design scenarios). -/
def stratRef100 : Strategy :=
  { cfg := cfgC2
    position := { side := "NONE", entry_price := none, qty := 0 }
    ref_price := some 100
    balance := 1000 }

/-- C3 counterexample: with reference 100, a price of 200 exceeds
`100·(1 + 0.015)` (the repository's re-arm threshold) — and any plausible
threshold — yet neither `update_reference_price` nor a full `maybe_prices`
tick moves the reference: no upward re-arm exists in the strategy. -/
theorem C3_counterexample :
    100 * (1 + (15 : ℚ)/1000) < 200 ∧
    (update_reference_price stratRef100 200).ref_price = some 100 ∧
    ((maybe_prices stratRef100 200).1).ref_price = some 100 := by
  refine ⟨by norm_num, rfl, ?_⟩
  rw [maybe_prices_fst]
  rfl

/-- C3 (amended): the reference price is initialized to the first observed
price, left unchanged by `update_reference_price` once set (there is no
upward re-arm on price moves), reset to the fill price when a buy executes,
and reset to the execution price when a sell executes. -/
theorem C3_reference_price_updates :
    (∀ (s : Strategy) (p : ℚ), s.ref_price = none →
      (update_reference_price s p).ref_price = some p) ∧
    (∀ (s : Strategy) (p q0 : ℚ), s.ref_price = some q0 →
      (update_reference_price s p).ref_price = some q0) ∧
    (∀ (s : Strategy) (p q f : ℚ), (on_buy_executed s p q f).ref_price = some p) ∧
    (∀ (s : Strategy) (p q f : ℚ) (out : ℚ × ℚ × Strategy),
      on_sell_executed s p q f = some out → out.2.2.ref_price = some p) := by
  refine ⟨?_, ?_, ?_, ?_⟩
  · intro s p h
    unfold update_reference_price
    rw [h]
  · intro s p q0 h
    unfold update_reference_price
    rw [h]
    exact h
  · intro s p q f
    rfl
  · intro s p q f out h
    unfold on_sell_executed at h
    cases he : s.position.entry_price with
    | none => rw [he] at h; exact absurd h (by simp)
    | some ep =>
      rw [he] at h
      simp only [Option.some.injEq] at h
      rw [← h]

/-- C3 witness: the amended claim's first clause at a concrete unset state. -/
theorem C3_witness :
    (update_reference_price { stratRef100 with ref_price := none } 7).ref_price = some 7 :=
  C3_reference_price_updates.1 { stratRef100 with ref_price := none } 7 rfl

/-! ## Claim C9 -/

/-- A strategy holding a LONG position of 2 units entered at 10. -/
def stratLong2 : Strategy :=
  { cfg := cfgC2
    position := { side := "LONG", entry_price := some 10, qty := 2 }
    ref_price := some 10
    balance := 100 }

/-- C9 counterexample: selling quantity 1 while the stored position quantity
is 2 yields pnl `20·1 − 10·2 − 0 = 0`, not the claim's
`price·qty − entryPrice·qty − fee = 20·1 − 10·1 − 0 = 10`: the cost leg uses
the stored position quantity, not the call's `qty` argument. -/
theorem C9_counterexample :
    (on_sell_executed stratLong2 20 1 0).map (fun out => out.1) = some 0 ∧
    (20 * 1 - 10 * 1 - 0 : ℚ) = 10 ∧ (0 : ℚ) ≠ 10 := by
  refine ⟨?_, by norm_num, by norm_num⟩
  show some ((20 * 1 : ℚ) - 10 * stratLong2.position.qty - 0) = some 0
  norm_num [stratLong2]

/-- C9 (amended): while a position with entry price `ep` is held,
`on_sell_executed(price, qty, fee)` computes
`pnl = price·qty − ep·positionQty − fee` (the cost leg uses the stored
position quantity, which equals the call's `qty` only when the full position
is sold), credits the balance by `price·qty − fee`, resets the position to
NONE with zero quantity and no entry price, and returns `(pnl, newBalance)`. -/
theorem C9_on_sell_executed_spec (s : Strategy) (price qty fee ep : ℚ)
    (hside : s.position.side = "LONG") (hep : s.position.entry_price = some ep) :
    on_sell_executed s price qty fee =
      some (price * qty - ep * s.position.qty - fee,
            s.balance + (price * qty - fee),
            { s with
              position := { side := "NONE", entry_price := none, qty := 0 }
              balance := s.balance + (price * qty - fee)
              ref_price := some price }) := by
  unfold on_sell_executed
  rw [hep]

/-- C9 witness: the amended specification at a concrete full-position sell. -/
theorem C9_witness :
    on_sell_executed stratLong2 20 2 (1/10) =
      some (20 * 2 - 10 * stratLong2.position.qty - 1/10,
            stratLong2.balance + (20 * 2 - 1/10),
            { stratLong2 with
              position := { side := "NONE", entry_price := none, qty := 0 }
              balance := stratLong2.balance + (20 * 2 - 1/10)
              ref_price := some 20 }) :=
  C9_on_sell_executed_spec stratLong2 20 2 (1/10) 10 rfl rfl

/-! ## Claim C10 -/

/-- C10: whenever `on_sell_executed` completes (returning
`(pnl, balance, state)`), the resulting state's reference price is the sell
execution price. -/
theorem C10_ref_price_after_sell (s : Strategy) (price qty fee : ℚ)
    (out : ℚ × ℚ × Strategy) (h : on_sell_executed s price qty fee = some out) :
    out.2.2.ref_price = some price := by
  unfold on_sell_executed at h
  cases he : s.position.entry_price with
  | none => rw [he] at h; exact absurd h (by simp)
  | some ep =>
    rw [he] at h
    simp only [Option.some.injEq] at h
    rw [← h]

/-- C10 witness: a concrete completed sell leaves the reference at the sell
price. -/
theorem C10_witness :
    ((20 * 2 - 10 * stratLong2.position.qty - 1/10,
      stratLong2.balance + (20 * 2 - 1/10),
      { stratLong2 with
        position := { side := "NONE", entry_price := none, qty := 0 }
        balance := stratLong2.balance + (20 * 2 - 1/10)
        ref_price := some 20 }) : ℚ × ℚ × Strategy).2.2.ref_price = some 20 :=
  C10_ref_price_after_sell stratLong2 20 2 (1/10) _ rfl

/-! ## Claim C4 -/

/-- A lot already CLOSED, used to show `set_lot_sell` has no OPEN-only
guard. -/
def lotClosed : Lot :=
  { id := 1, buy_price := 100, qty_remaining := 1, target_price := 110
    sell_client_id := none, status := "CLOSED" }

/-- A one-row ledger whose only lot is CLOSED. -/
def ledgerClosed : LotLedger := { lots := [lotClosed], next_id := 2 }

/-- C4 counterexample: `set_lot_sell` (the `armSell` operation) moves even a
CLOSED lot to SELL_PLACED — the transition CLOSED → SELL_PLACED is reachable,
so armSell is not restricted to OPEN lots and the claimed transition system
is violated. -/
theorem C4_counterexample :
    ledgerClosed.lots.map Lot.status = ["CLOSED"] ∧
    (set_lot_sell ledgerClosed 1 "cid" 120).lots.map Lot.status = ["SELL_PLACED"] := by
  constructor
  · rfl
  · rfl

/-- C4 (amended): `insert_lot` only adds OPEN lots; `set_lot_sell`
unconditionally sets the addressed lot's status to SELL_PLACED regardless of
its prior status (there is no OPEN-only guard, so CLOSED → SELL_PLACED is
also reachable), leaving other lots unchanged; `close_lot` unconditionally
sets the addressed lot to CLOSED; and no ledger operation ever returns an
existing lot to OPEN, so SELL_PLACED → OPEN is not reachable. -/
theorem C4_lot_status_transitions :
    (∀ (st : LotLedger) (bp q tp : ℚ) (l : Lot),
      l ∈ ((insert_lot st bp q tp).2).lots → l ∈ st.lots ∨ l.status = "OPEN") ∧
    (∀ (st : LotLedger) (lot_id : ℕ) (cid : String) (p : ℚ) (l : Lot),
      l ∈ st.lots → l.id = lot_id →
      { l with sell_client_id := some cid, target_price := p,
               status := "SELL_PLACED" } ∈ (set_lot_sell st lot_id cid p).lots) ∧
    (∀ (st : LotLedger) (lot_id : ℕ) (cid : String) (p : ℚ) (l : Lot),
      l ∈ (set_lot_sell st lot_id cid p).lots →
      l.status = "SELL_PLACED" ∨ l ∈ st.lots) ∧
    (∀ (st : LotLedger) (lot_id : ℕ) (l : Lot),
      l ∈ st.lots → l.id = lot_id →
      { l with status := "CLOSED" } ∈ (close_lot st lot_id).lots) ∧
    (∀ (st : LotLedger) (lot_id : ℕ) (l : Lot),
      l ∈ (close_lot st lot_id).lots → l.status = "CLOSED" ∨ l ∈ st.lots) ∧
    (∀ (st : LotLedger) (lot_id : ℕ) (cid : String) (p : ℚ) (l : Lot),
      l ∈ (set_lot_sell st lot_id cid p).lots → l.status = "OPEN" → l ∈ st.lots) ∧
    (∀ (st : LotLedger) (lot_id : ℕ) (l : Lot),
      l ∈ (close_lot st lot_id).lots → l.status = "OPEN" → l ∈ st.lots) := by
  refine ⟨?_, ?_, ?_, ?_, ?_, ?_, ?_⟩
  · intro st bp q tp l hl
    rcases List.mem_append.mp hl with h | h
    · exact Or.inl h
    · right
      rw [List.mem_singleton.mp h]
  · intro st lot_id cid p l hl hid
    unfold set_lot_sell
    refine List.mem_map.mpr ⟨l, hl, ?_⟩
    rw [if_pos hid]
  · intro st lot_id cid p l hl
    rcases List.mem_map.mp hl with ⟨a, ha, he⟩
    by_cases hid : a.id = lot_id
    · rw [if_pos hid] at he
      left
      rw [← he]
    · rw [if_neg hid] at he
      right
      rw [← he]
      exact ha
  · intro st lot_id l hl hid
    unfold close_lot
    refine List.mem_map.mpr ⟨l, hl, ?_⟩
    rw [if_pos hid]
  · intro st lot_id l hl
    rcases List.mem_map.mp hl with ⟨a, ha, he⟩
    by_cases hid : a.id = lot_id
    · rw [if_pos hid] at he
      left
      rw [← he]
    · rw [if_neg hid] at he
      right
      rw [← he]
      exact ha
  · intro st lot_id cid p l hl hopen
    rcases List.mem_map.mp hl with ⟨a, ha, he⟩
    by_cases hid : a.id = lot_id
    · rw [if_pos hid] at he
      rw [← he] at hopen
      exact absurd hopen (by simp)
    · rw [if_neg hid] at he
      rw [← he]
      exact ha
  · intro st lot_id l hl hopen
    rcases List.mem_map.mp hl with ⟨a, ha, he⟩
    by_cases hid : a.id = lot_id
    · rw [if_pos hid] at he
      rw [← he] at hopen
      exact absurd hopen (by simp)
    · rw [if_neg hid] at he
      rw [← he]
      exact ha

/-- C4 witness: arming a sell on the CLOSED lot of `ledgerClosed` puts its
SELL_PLACED version in the ledger. -/
theorem C4_witness :
    { lotClosed with sell_client_id := some "cid", target_price := 120,
                     status := "SELL_PLACED" } ∈ (set_lot_sell ledgerClosed 1 "cid" 120).lots :=
  C4_lot_status_transitions.2.1 ledgerClosed 1 "cid" 120 lotClosed
    (by simp [ledgerClosed]) rfl

/-! ## Claim C5 -/

/-- Flooring at a decimal precision never rounds a nonnegative value up. -/
lemma quantize_down_le {x : ℚ} (k : ℕ) (hx : 0 ≤ x) : quantize_down x k ≤ x := by
  unfold quantize_down
  rw [qtrunc_of_nonneg (by positivity)]
  rw [div_le_iff₀ (by positivity : (0:ℚ) < 10 ^ k)]
  exact Int.floor_le _

/-- The guard of `_post_quant_checks` fails exactly on an undersized
quantity, or an undersized notional at a nonzero quantized price. -/
lemma post_quant_checks_eq_false_iff (qty price : ℚ) (f : Filters) :
    post_quant_checks qty price f = false ↔
      qty < f.min_qty ∨ (price ≠ 0 ∧ qty * price < f.min_notional) := by
  unfold post_quant_checks
  split_ifs with h1 h2
  · simp [h1]
  · simp [h2]
  · simp [h1, h2]

/-- C5 (amended): `order_limit_maker` floors the quantity and the price
downward at the decimal precision derived from the step size and tick size
(this equals flooring to the step/tick only when those are negative powers
of ten), never rounding up; it raises the sizing error without any exchange
call exactly when the quantized quantity is below the minimum quantity or
the quantized price is nonzero with quantized notional below the minimum
notional (a price that quantizes to zero bypasses the notional check); any
placement call carries exactly the quantized pair. -/
theorem C5_sizing_guard (f : Filters) (q p : ℚ) (hq : 0 ≤ q) (hp : 0 ≤ p) :
    quantize_down q (decimals_from_step f.step_size) ≤ q ∧
    quantize_down p (decimals_from_step f.tick_size) ≤ p ∧
    (order_limit_maker f q p =
        Except.error "Fails filters after quantize (minQty/minNotional)" ↔
      (quantize_down q (decimals_from_step f.step_size) < f.min_qty ∨
        (quantize_down p (decimals_from_step f.tick_size) ≠ 0 ∧
         quantize_down q (decimals_from_step f.step_size) *
           quantize_down p (decimals_from_step f.tick_size) < f.min_notional))) ∧
    (∀ qd pd : ℚ, order_limit_maker f q p = Except.ok (qd, pd) →
      qd = quantize_down q (decimals_from_step f.step_size) ∧
      pd = quantize_down p (decimals_from_step f.tick_size)) := by
  have hif : order_limit_maker f q p =
      if post_quant_checks (quantize_down q (decimals_from_step f.step_size))
          (quantize_down p (decimals_from_step f.tick_size)) f then
        Except.ok (quantize_down q (decimals_from_step f.step_size),
          quantize_down p (decimals_from_step f.tick_size))
      else Except.error "Fails filters after quantize (minQty/minNotional)" := rfl
  refine ⟨quantize_down_le _ hq, quantize_down_le _ hp, ?_, ?_⟩
  · rw [hif]
    rcases hpost : post_quant_checks (quantize_down q (decimals_from_step f.step_size))
        (quantize_down p (decimals_from_step f.tick_size)) f with _ | _
    · rw [if_neg Bool.false_ne_true]
      refine ⟨fun _ => ?_, fun _ => rfl⟩
      exact (post_quant_checks_eq_false_iff _ _ f).mp hpost
    · rw [if_pos rfl]
      constructor
      · intro h
        exact absurd h (by simp)
      · intro h
        have hc := (post_quant_checks_eq_false_iff _ _ f).mpr h
        rw [hpost] at hc
        exact absurd hc (by simp)
  · intro qd pd h
    rw [hif] at h
    rcases hpost : post_quant_checks (quantize_down q (decimals_from_step f.step_size))
        (quantize_down p (decimals_from_step f.tick_size)) f with _ | _
    · rw [hpost, if_neg Bool.false_ne_true] at h
      exact absurd h (by simp)
    · rw [hpost, if_pos rfl] at h
      simp only [Except.ok.injEq, Prod.mk.injEq] at h
      exact ⟨h.1.symm, h.2.symm⟩

/-- Filters with a step size of 0.05, which is not a negative power of
ten. -/
def filtersStep : Filters :=
  { min_qty := 0, step_size := 1/20, min_notional := 0, tick_size := 1/100 }

/-- Filters with a minimum notional of 5 (the Binance default). -/
def filtersTight : Filters :=
  { min_qty := 1/100, step_size := 1/100, min_notional := 5, tick_size := 1/100 }

/-- C5 counterexample: with step size 0.05, a requested quantity of 0.07 is
passed through as 0.07 (the code quantizes at two decimal places, the
precision of the step, not to multiples of the step), although 0.07 is not
an integer multiple of 0.05; and a price that quantizes to zero (0.005 at
tick 0.01) bypasses the minimum-notional check entirely: the order is
accepted with notional 0 below the minimum notional 5. -/
theorem C5_counterexample :
    order_limit_maker filtersStep (7/100) 1 = Except.ok (7/100, 1) ∧
    (¬ ∃ k : ℤ, (7 : ℚ)/100 = (k : ℚ) * (1/20)) ∧
    order_limit_maker filtersTight 1 (1/200) = Except.ok (1, 0) ∧
    (0 : ℚ) < filtersTight.min_notional := by
  refine ⟨?_, ?_, ?_, by norm_num [filtersTight]⟩
  · have hqd : quantize_down (7/100) (decimals_from_step filtersStep.step_size) = 7/100 := by
      have hd : decimals_from_step filtersStep.step_size = 2 := by
        with_unfolding_all decide
      rw [hd]
      unfold quantize_down
      rw [show qtrunc ((7 : ℚ)/100 * 10 ^ 2) = 7 from
        qtrunc_eq_of_bounds (by norm_num) (by norm_num) (by norm_num)]
      norm_num
    have hpd : quantize_down 1 (decimals_from_step filtersStep.tick_size) = 1 := by
      have hd : decimals_from_step filtersStep.tick_size = 2 := by
        with_unfolding_all decide
      rw [hd]
      unfold quantize_down
      rw [show qtrunc ((1 : ℚ) * 10 ^ 2) = 100 from
        qtrunc_eq_of_bounds (by norm_num) (by norm_num) (by norm_num)]
      norm_num
    have hpost : post_quant_checks (7/100) 1 filtersStep = true := by
      unfold post_quant_checks
      rw [if_neg (by norm_num [filtersStep]), if_neg (by norm_num [filtersStep])]
    show (if post_quant_checks (quantize_down (7/100) (decimals_from_step filtersStep.step_size))
        (quantize_down 1 (decimals_from_step filtersStep.tick_size)) filtersStep then
        Except.ok (quantize_down (7/100) (decimals_from_step filtersStep.step_size),
          quantize_down 1 (decimals_from_step filtersStep.tick_size))
      else Except.error "Fails filters after quantize (minQty/minNotional)") =
        Except.ok ((7 : ℚ)/100, 1)
    rw [hqd, hpd, hpost, if_pos rfl]
  · rintro ⟨k, hk⟩
    have h1 : (7 : ℚ) = 5 * (k : ℚ) := by
      field_simp at hk
      linarith
    have h2 : (7 : ℤ) = 5 * k := by exact_mod_cast h1
    omega
  · have hqd : quantize_down 1 (decimals_from_step filtersTight.step_size) = 1 := by
      have hd : decimals_from_step filtersTight.step_size = 2 := by
        with_unfolding_all decide
      rw [hd]
      unfold quantize_down
      rw [show qtrunc ((1 : ℚ) * 10 ^ 2) = 100 from
        qtrunc_eq_of_bounds (by norm_num) (by norm_num) (by norm_num)]
      norm_num
    have hpd : quantize_down (1/200) (decimals_from_step filtersTight.tick_size) = 0 := by
      have hd : decimals_from_step filtersTight.tick_size = 2 := by
        with_unfolding_all decide
      rw [hd]
      unfold quantize_down
      rw [show qtrunc ((1 : ℚ)/200 * 10 ^ 2) = 0 from
        qtrunc_eq_of_bounds (by norm_num) (by norm_num) (by norm_num)]
      norm_num
    have hpost : post_quant_checks 1 0 filtersTight = true := by
      unfold post_quant_checks
      rw [if_neg (by norm_num [filtersTight]), if_neg (by norm_num)]
    show (if post_quant_checks (quantize_down 1 (decimals_from_step filtersTight.step_size))
        (quantize_down (1/200) (decimals_from_step filtersTight.tick_size)) filtersTight then
        Except.ok (quantize_down 1 (decimals_from_step filtersTight.step_size),
          quantize_down (1/200) (decimals_from_step filtersTight.tick_size))
      else Except.error "Fails filters after quantize (minQty/minNotional)") =
        Except.ok ((1 : ℚ), 0)
    rw [hqd, hpd, hpost, if_pos rfl]

/-- C5 witness: the amended sizing guard at a well-sized concrete order. -/
theorem C5_witness :
    quantize_down 1 (decimals_from_step filtersTight.step_size) ≤ 1 ∧
    quantize_down 10 (decimals_from_step filtersTight.tick_size) ≤ 10 ∧
    (order_limit_maker filtersTight 1 10 =
        Except.error "Fails filters after quantize (minQty/minNotional)" ↔
      (quantize_down 1 (decimals_from_step filtersTight.step_size) < filtersTight.min_qty ∨
        (quantize_down 10 (decimals_from_step filtersTight.tick_size) ≠ 0 ∧
         quantize_down 1 (decimals_from_step filtersTight.step_size) *
           quantize_down 10 (decimals_from_step filtersTight.tick_size) <
           filtersTight.min_notional))) ∧
    (∀ qd pd : ℚ, order_limit_maker filtersTight 1 10 = Except.ok (qd, pd) →
      qd = quantize_down 1 (decimals_from_step filtersTight.step_size) ∧
      pd = quantize_down 10 (decimals_from_step filtersTight.tick_size)) :=
  C5_sizing_guard filtersTight 1 10 (by norm_num) (by norm_num)

/-! ## Claim C7 -/

/-- Merging two buys into a ledger with no open accumulator lot: the first
`upsert_accum_lot` inserts a fresh lot, the second merges into it, summing
quantities and volume-weighting the price. -/
lemma upsert_pair (st : LotLedger) (p1 q1 p2 q2 t1 t2 : ℚ)
    (hacc : ∀ l ∈ st.lots, is_accum_lot l = false)
    (hq1 : 0 < q1) (hq2 : 0 < q2) :
    (upsert_accum_lot (upsert_accum_lot st p1 q1 t1).2.2.2 p2 q2 t2).2.2.1 = q1 + q2 ∧
    (upsert_accum_lot (upsert_accum_lot st p1 q1 t1).2.2.2 p2 q2 t2).2.1 =
      (p1 * q1 + p2 * q2) / (q1 + q2) := by
  have hfind : st.lots.find? is_accum_lot = none :=
    List.find?_eq_none.mpr (by intro l hl; simp [hacc l hl])
  have h1 : (upsert_accum_lot st p1 q1 t1).2.2.2 =
      { lots := st.lots ++
          [{ id := st.next_id, buy_price := p1, qty_remaining := q1, target_price := t1,
             sell_client_id := none, status := "OPEN" }],
        next_id := st.next_id + 1 } := by
    unfold upsert_accum_lot
    rw [hfind]
    rfl
  rw [h1]
  clear h1
  have hfind2 : (st.lots ++
      [{ id := st.next_id, buy_price := p1, qty_remaining := q1, target_price := t1,
         sell_client_id := none, status := "OPEN" : Lot }]).find? is_accum_lot =
      some { id := st.next_id, buy_price := p1, qty_remaining := q1, target_price := t1,
             sell_client_id := none, status := "OPEN" } := by
    rw [List.find?_append, hfind]
    rfl
  unfold upsert_accum_lot
  rw [hfind2]
  dsimp only
  have hq : ¬ (q1 + q2 ≤ 0) := by push_neg; linarith
  rw [if_neg hq, if_pos (by linarith : (0:ℚ) < q1 + q2)]
  exact ⟨rfl, rfl⟩

/-- C7: merging two positive buy fills into a ledger with no prior open
accumulator lot is order-invariant — both orders give quantity `q1 + q2`
and volume-weighted average price `(p1·q1 + p2·q2)/(q1 + q2)`; in
particular fills of 0.01 at 100 and 0.02 at 103 on an empty ledger yield
quantity 0.03 at average price 102. -/
theorem C7_lot_merge_order_invariant :
    (∀ (st : LotLedger) (p1 q1 p2 q2 t1 t2 : ℚ),
      (∀ l ∈ st.lots, is_accum_lot l = false) → 0 < q1 → 0 < q2 →
      (upsert_accum_lot (upsert_accum_lot st p1 q1 t1).2.2.2 p2 q2 t2).2.2.1 = q1 + q2 ∧
      (upsert_accum_lot (upsert_accum_lot st p1 q1 t1).2.2.2 p2 q2 t2).2.1 =
        (p1 * q1 + p2 * q2) / (q1 + q2) ∧
      (upsert_accum_lot (upsert_accum_lot st p2 q2 t2).2.2.2 p1 q1 t1).2.2.1 =
        (upsert_accum_lot (upsert_accum_lot st p1 q1 t1).2.2.2 p2 q2 t2).2.2.1 ∧
      (upsert_accum_lot (upsert_accum_lot st p2 q2 t2).2.2.2 p1 q1 t1).2.1 =
        (upsert_accum_lot (upsert_accum_lot st p1 q1 t1).2.2.2 p2 q2 t2).2.1) ∧
    (upsert_accum_lot (upsert_accum_lot ⟨[], 1⟩ 100 (1/100) 110).2.2.2 103 (2/100) 113).2.2.1 =
      3/100 ∧
    (upsert_accum_lot (upsert_accum_lot ⟨[], 1⟩ 100 (1/100) 110).2.2.2 103 (2/100) 113).2.1 =
      102 := by
  have main : ∀ (st : LotLedger) (p1 q1 p2 q2 t1 t2 : ℚ),
      (∀ l ∈ st.lots, is_accum_lot l = false) → 0 < q1 → 0 < q2 →
      (upsert_accum_lot (upsert_accum_lot st p1 q1 t1).2.2.2 p2 q2 t2).2.2.1 = q1 + q2 ∧
      (upsert_accum_lot (upsert_accum_lot st p1 q1 t1).2.2.2 p2 q2 t2).2.1 =
        (p1 * q1 + p2 * q2) / (q1 + q2) ∧
      (upsert_accum_lot (upsert_accum_lot st p2 q2 t2).2.2.2 p1 q1 t1).2.2.1 =
        (upsert_accum_lot (upsert_accum_lot st p1 q1 t1).2.2.2 p2 q2 t2).2.2.1 ∧
      (upsert_accum_lot (upsert_accum_lot st p2 q2 t2).2.2.2 p1 q1 t1).2.1 =
        (upsert_accum_lot (upsert_accum_lot st p1 q1 t1).2.2.2 p2 q2 t2).2.1 := by
    intro st p1 q1 p2 q2 t1 t2 hacc hq1 hq2
    obtain ⟨hqty12, hbp12⟩ := upsert_pair st p1 q1 p2 q2 t1 t2 hacc hq1 hq2
    obtain ⟨hqty21, hbp21⟩ := upsert_pair st p2 q2 p1 q1 t2 t1 hacc hq2 hq1
    refine ⟨hqty12, hbp12, ?_, ?_⟩
    · rw [hqty12, hqty21]
      ring
    · rw [hbp12, hbp21]
      rw [add_comm (p2 * q2), add_comm q2 q1]
  refine ⟨main, ?_, ?_⟩
  · obtain ⟨hq, _⟩ := upsert_pair ⟨[], 1⟩ 100 (1/100) 103 (2/100) 110 113
      (by intro l hl; cases hl) (by norm_num) (by norm_num)
    rw [hq]
    norm_num
  · obtain ⟨_, hbp⟩ := upsert_pair ⟨[], 1⟩ 100 (1/100) 103 (2/100) 110 113
      (by intro l hl; cases hl) (by norm_num) (by norm_num)
    rw [hbp]
    norm_num

/-- C7 witness: the universal part of the claim applied to a concrete
ledger that already holds a CLOSED (hence non-accumulator) lot. -/
theorem C7_witness :
    (upsert_accum_lot (upsert_accum_lot ledgerClosed 100 (1/100) 110).2.2.2 103
        (2/100) 113).2.2.1 = 1/100 + 2/100 ∧
    (upsert_accum_lot (upsert_accum_lot ledgerClosed 100 (1/100) 110).2.2.2 103
        (2/100) 113).2.1 = (100 * (1/100) + 103 * (2/100)) / (1/100 + 2/100) ∧
    (upsert_accum_lot (upsert_accum_lot ledgerClosed 103 (2/100) 113).2.2.2 100
        (1/100) 110).2.2.1 =
      (upsert_accum_lot (upsert_accum_lot ledgerClosed 100 (1/100) 110).2.2.2 103
        (2/100) 113).2.2.1 ∧
    (upsert_accum_lot (upsert_accum_lot ledgerClosed 103 (2/100) 113).2.2.2 100
        (1/100) 110).2.1 =
      (upsert_accum_lot (upsert_accum_lot ledgerClosed 100 (1/100) 110).2.2.2 103
        (2/100) 113).2.1 :=
  C7_lot_merge_order_invariant.1 ledgerClosed 100 (1/100) 103 (2/100) 110 113
    (by intro l hl; rcases List.mem_singleton.mp hl with rfl; rfl)
    (by norm_num) (by norm_num)

/-! ## Claim C8 -/

/-- C8: when flat with reference `q0 > 0`, `maybe_prices` emits WANT_BUY with
target `q0·(1 − minChangePct)` exactly when the drop `(q0 − price)/q0`
reaches `minChangePct`, and HOLD otherwise; with reference 100 and
minChangePct 5%, price 94 yields WANT_BUY at 95. -/
theorem C8_want_buy_trigger (s : Strategy) (price q0 : ℚ)
    (hside : s.position.side = "NONE") (href : s.ref_price = some q0)
    (hq0 : 0 < q0) :
    ((s.cfg.min_change_pct ≤ (q0 - price) / q0 →
        maybe_prices s price =
          (s, "WANT_BUY", some (q0 * (1 - s.cfg.min_change_pct)), none)) ∧
      (¬ s.cfg.min_change_pct ≤ (q0 - price) / q0 →
        maybe_prices s price = (s, "HOLD", none, none))) ∧
    maybe_prices stratRef100 94 = (stratRef100, "WANT_BUY", some 95, none) := by
  have hupd : update_reference_price s price = s := by
    unfold update_reference_price
    rw [href]
  have hcond : ((price - q0) / q0 ≤ -s.cfg.min_change_pct ↔
      s.cfg.min_change_pct ≤ (q0 - price) / q0) := by
    have hne : (price - q0) / q0 = -((q0 - price) / q0) := by ring
    rw [hne]
    constructor <;> intro h <;> linarith
  have hbranch : maybe_prices s price =
      if (price - q0) / q0 ≤ -s.cfg.min_change_pct then
        (s, "WANT_BUY", some (q0 * (1 - s.cfg.min_change_pct)), none)
      else (s, "HOLD", none, none) := by
    unfold maybe_prices
    rw [hupd]
    dsimp only
    rw [href]
    dsimp only
    rw [hside, if_pos rfl]
  constructor
  · constructor
    · intro h
      rw [hbranch, if_pos (hcond.mpr h)]
    · intro h
      rw [hbranch, if_neg (fun hc => h (hcond.mp hc))]
  · have hupd2 : update_reference_price stratRef100 94 = stratRef100 := rfl
    have : maybe_prices stratRef100 94 =
        if ((94 : ℚ) - 100) / 100 ≤ -stratRef100.cfg.min_change_pct then
          (stratRef100, "WANT_BUY",
            some ((100 : ℚ) * (1 - stratRef100.cfg.min_change_pct)), none)
        else (stratRef100, "HOLD", none, none) := by
      simp only [maybe_prices, hupd2]
      rfl
    rw [this, if_pos (by norm_num [stratRef100, cfgC2])]
    norm_num [stratRef100, cfgC2]

/-- C8 witness: the trigger clause applied at reference 100, minimum change
5%, price 94. -/
theorem C8_witness :
    maybe_prices stratRef100 94 =
      (stratRef100, "WANT_BUY", some ((100 : ℚ) * (1 - stratRef100.cfg.min_change_pct)),
        none) :=
  ((C8_want_buy_trigger stratRef100 94 100 rfl rfl (by norm_num)).1.1
    (by norm_num [stratRef100, cfgC2]))

/-! ## Claim C6 -/

/-- The descending score comparison is transitive. -/
lemma score_desc_trans {α : Type} :
    ∀ a b c : ℚ × α, score_desc a b → score_desc b c → score_desc a c := by
  intro a b c hab hbc
  simp only [score_desc, decide_eq_true_eq] at *
  exact le_trans hbc hab

/-- The descending score comparison is total. -/
lemma score_desc_total {α : Type} :
    ∀ a b : ℚ × α, score_desc a b || score_desc b a := by
  intro a b
  simp only [score_desc, Bool.or_eq_true, decide_eq_true_eq]
  exact le_total b.1 a.1

/-- The head of the stable descending sort is the earliest element of the
list attaining the maximal key: it is a member, its key dominates every
key, and every element before its position has a strictly smaller key. -/
lemma head_mergeSort_first_max {α : Type} (l : List (ℚ × α)) :
    ∀ x, ((l.mergeSort score_desc).head? = some x) →
      x ∈ l ∧ (∀ y ∈ l, y.1 ≤ x.1) ∧
        ∃ i, i < l.length ∧ l[i]? = some x ∧ ∀ y ∈ l.take i, y.1 < x.1 := by
  induction l with
  | nil => intro x h; simp at h
  | cons a l ih =>
    intro x h
    obtain ⟨l1, l2, h1, h2, h3⟩ :=
      List.mergeSort_cons score_desc_trans score_desc_total a l
    have hs := List.sorted_mergeSort score_desc_trans score_desc_total (a :: l)
    rw [h1] at hs
    cases l1 with
    | nil =>
      rw [h1] at h
      simp only [List.nil_append, List.head?_cons, Option.some.injEq] at h
      subst h
      simp only [List.nil_append] at h2
      refine ⟨List.mem_cons_self _ _, ?_, 0, by simp, by simp, by simp⟩
      intro y hy
      rcases List.mem_cons.mp hy with rfl | hy2
      · exact le_refl _
      · have hyl2 : y ∈ l2 := by
          rw [← h2]
          exact List.mem_mergeSort.mpr hy2
        have := (List.pairwise_cons.mp hs).1 y hyl2
        simpa [score_desc, decide_eq_true_eq] using this
    | cons c l1t =>
      rw [h1] at h
      simp only [List.cons_append, List.head?_cons, Option.some.injEq] at h
      subst h
      have hh : (l.mergeSort score_desc).head? = some c := by
        rw [h2]
        rfl
      obtain ⟨hmem, hmax, i, hi, hget, htake⟩ := ih c hh
      have hac : a.1 < c.1 := by
        have hb := h3 c (List.mem_cons_self _ _)
        simp only [score_desc, Bool.not_eq_true', decide_eq_false_iff_not, not_le] at hb
        exact hb
      refine ⟨List.mem_cons_of_mem _ hmem, ?_, i + 1, by simpa using hi,
        by simpa using hget, ?_⟩
      · intro y hy
        rcases List.mem_cons.mp hy with rfl | hy2
        · exact hac.le
        · exact hmax y hy2
      · intro y hy
        rw [List.take_succ_cons] at hy
        rcases List.mem_cons.mp hy with rfl | hy2
        · exact hac
        · exact htake y hy2

/-- C6: with exploration probability 0 (and any nonnegative random draw),
`choose_active_config` exploits: it returns a configuration whose score
`avg_pnl · min(num_trades/20, 1)` — zero for a configuration without
recorded trades — is maximal over the configuration list; the returned
configuration is the earliest one attaining that maximum, so distinct
scores give the strict maximum and ties are broken by encounter order. -/
theorem C6_bandit_exploit_argmax (r : ℚ) (pick : ℕ) (configs : List BanditConfig)
    (perf : List PerfRow) (hr : 0 ≤ r) (hne : configs ≠ []) :
    (∀ c : BanditConfig, perf_lookup perf c.id = none → config_score perf c = 0) ∧
    ∃ cfg, choose_active_config 0 r pick configs perf = some cfg ∧ cfg ∈ configs ∧
      (∀ c ∈ configs, config_score perf c ≤ config_score perf cfg) ∧
      ∃ i, i < configs.length ∧ configs[i]? = some cfg ∧
        ∀ c ∈ configs.take i, config_score perf c < config_score perf cfg := by
  constructor
  · intro c h
    unfold config_score
    rw [h]
  · obtain ⟨c0, cs, rfl⟩ := List.exists_cons_of_ne_nil hne
    have hlen : ((c0 :: cs).map fun cfg => (config_score perf cfg, cfg)).length =
        cs.length + 1 := by simp
    have hne2 : (((c0 :: cs).map fun cfg =>
        (config_score perf cfg, cfg)).mergeSort score_desc) ≠ [] := by
      intro hcon
      have hp := List.mergeSort_perm
        ((c0 :: cs).map fun cfg => (config_score perf cfg, cfg)) score_desc
      rw [hcon] at hp
      have h1 := hp.symm.eq_nil
      simp at h1
    obtain ⟨x, xs, hx⟩ := List.exists_cons_of_ne_nil hne2
    have hhead : (((c0 :: cs).map fun cfg =>
        (config_score perf cfg, cfg)).mergeSort score_desc).head? = some x := by
      rw [hx]
      rfl
    obtain ⟨hmem, hmax, i, hi, hget, htake⟩ :=
      head_mergeSort_first_max ((c0 :: cs).map fun cfg => (config_score perf cfg, cfg))
        x hhead
    obtain ⟨cfg, hcfgmem, hfx⟩ := List.mem_map.mp hmem
    have hx1 : x.1 = config_score perf cfg := by rw [← hfx]
    have hx2 : x.2 = cfg := by rw [← hfx]
    refine ⟨cfg, ?_, hcfgmem, ?_, i, by simpa using hi, ?_, ?_⟩
    · show choose_active_config 0 r pick (c0 :: cs) perf = some cfg
      unfold choose_active_config
      dsimp only
      rw [if_neg (not_lt.mpr hr)]
      rw [hhead]
      show some x.2 = some cfg
      rw [hx2]
    · intro c hc
      have hmemc : (config_score perf c, c) ∈
          (c0 :: cs).map fun cfg => (config_score perf cfg, cfg) :=
        List.mem_map_of_mem _ hc
      have := hmax _ hmemc
      rw [hx1] at this
      exact this
    · have hmap : ((c0 :: cs).map fun cfg => (config_score perf cfg, cfg))[i]? =
          ((c0 :: cs)[i]?).map fun cfg => (config_score perf cfg, cfg) :=
        List.getElem?_map _ _ _
      rw [hmap] at hget
      obtain ⟨c2, hc2, hfc2⟩ := Option.map_eq_some'.mp hget
      have : c2 = cfg := by
        have e := congrArg Prod.snd (hfc2.trans hfx.symm)
        exact e
      rw [← this]
      exact hc2
    · intro c hc
      have hmemc : (config_score perf c, c) ∈
          ((c0 :: cs).map fun cfg => (config_score perf cfg, cfg)).take i := by
        rw [← List.map_take]
        exact List.mem_map_of_mem _ (by simpa using hc)
      have := htake _ hmemc
      rw [hx1] at this
      exact this

/-- Bandit configurations for the witness: id 1 scores 0 (no trades), id 2
scores `0.5 · min(20/20, 1) = 0.5`. -/
def banditCfgA : BanditConfig :=
  { id := 1, min_change_pct := 3/100, max_change_pct := 1/10, trade_qty_frac := 1/10 }

/-- Second witness configuration. -/
def banditCfgB : BanditConfig :=
  { id := 2, min_change_pct := 1/20, max_change_pct := 12/100, trade_qty_frac := 1/10 }

/-- Performance rows for the witness: only configuration 2 has trades. -/
def perfW : List PerfRow :=
  [{ config_id := 2, num_trades := 20, total_pnl := 10, avg_pnl := 1/2 }]

/-- C6 witness: exploitation at `ε = 0` on a concrete two-configuration
pool. -/
theorem C6_witness :
    (∀ c : BanditConfig, perf_lookup perfW c.id = none → config_score perfW c = 0) ∧
    ∃ cfg, choose_active_config 0 0 0 [banditCfgA, banditCfgB] perfW = some cfg ∧
      cfg ∈ [banditCfgA, banditCfgB] ∧
      (∀ c ∈ [banditCfgA, banditCfgB],
        config_score perfW c ≤ config_score perfW cfg) ∧
      ∃ i, i < ([banditCfgA, banditCfgB] : List BanditConfig).length ∧
        ([banditCfgA, banditCfgB] : List BanditConfig)[i]? = some cfg ∧
        ∀ c ∈ ([banditCfgA, banditCfgB] : List BanditConfig).take i,
          config_score perfW c < config_score perfW cfg :=
  C6_bandit_exploit_argmax 0 0 [banditCfgA, banditCfgB] perfW le_rfl (by simp)

end BtcBot
